import Mathlib

/-!
Shallow embedding of the market engine in src/backend/market.py and the
parameter validation in src/backend/models.py, together with theorems
checking the specification claims about equilibrium matching, surplus,
segment sampling and parameter validation.

Python ints are modelled as ℤ and Python floats as ℚ: every float value the
embedded code produces is a midpoint or sum of small integers, which is
exact in binary64, so ℚ is a faithful model of the float arithmetic here.
-/

namespace Mkt

/-- The matching loop of find_equilibrium (market.py lines 220-230): walk
demand against supply pairwise, counting matches while wtp is at least
cost and tracking the last matched pair; stop at the first failing pair or
when either list is exhausted (zip semantics). -/
def matchLoop : List ℤ → List ℤ → ℕ → Option ℤ → Option ℤ → ℕ × Option ℤ × Option ℤ
  | wtp :: dtl, cost :: stl, m, lw, lc =>
      if cost ≤ wtp then matchLoop dtl stl (m + 1) (some wtp) (some cost)
      else (m, lw, lc)
  | _, _, m, lw, lc => (m, lw, lc)

/-- find_equilibrium (market.py lines 185-253). In Python last_wtp and
last_cost start as None and are read only on paths where matches > 0, on
which the loop has necessarily assigned them; the Option.getD 0 default
here is therefore never actually used. -/
def find_equilibrium (demand supply : List ℤ) : ℤ × ℚ :=
  match demand, supply with
  | [], [] => (0, 0)
  | [], s0 :: _ => (0, (s0 : ℚ))
  | d0 :: _, [] => (0, (d0 : ℚ))
  | d0 :: dtl, s0 :: stl =>
    if d0 < s0 then (0, ((d0 : ℚ) + (s0 : ℚ)) / 2)
    else
      let r := matchLoop (d0 :: dtl) (s0 :: stl) 0 none none
      if r.1 = 0 then (0, ((d0 : ℚ) + (s0 : ℚ)) / 2)
      else
        let lastWtp : ℤ := r.2.1.getD 0
        let lastCost : ℤ := r.2.2.getD 0
        if r.1 = min (d0 :: dtl).length (s0 :: stl).length then
          ((r.1 : ℤ), ((lastWtp : ℚ) + (lastCost : ℚ)) / 2)
        else
          let nextUnmatchedBuyer : ℤ := (d0 :: dtl).getD r.1 lastWtp
          ((r.1 : ℤ), ((nextUnmatchedBuyer : ℚ) + (lastCost : ℚ)) / 2)

/-- Length of the initial run of positions where demand meets supply: the
number of matches the loop of find_equilibrium counts. -/
def countMatches : List ℤ → List ℤ → ℕ
  | wtp :: dtl, cost :: stl => if cost ≤ wtp then countMatches dtl stl + 1 else 0
  | _, _ => 0

theorem matchLoop_fst (d : List ℤ) : ∀ (s : List ℤ) (n : ℕ) (lw lc : Option ℤ),
    (matchLoop d s n lw lc).1 = n + countMatches d s := by
  induction d with
  | nil => intro s n lw lc; cases s <;> simp [matchLoop, countMatches]
  | cons w dtl ih =>
    intro s n lw lc
    cases s with
    | nil => simp [matchLoop, countMatches]
    | cons c stl =>
      by_cases hc : c ≤ w
      · simp only [matchLoop, countMatches, if_pos hc, ih]
        omega
      · simp [matchLoop, countMatches, if_neg hc]

theorem matchLoop_of_count_zero (d : List ℤ) : ∀ (s : List ℤ) (n : ℕ) (lw lc : Option ℤ),
    countMatches d s = 0 → matchLoop d s n lw lc = (n, lw, lc) := by
  intro s n lw lc h
  cases d with
  | nil => cases s <;> simp [matchLoop]
  | cons w dtl =>
    cases s with
    | nil => simp [matchLoop]
    | cons c stl =>
      by_cases hc : c ≤ w
      · simp [countMatches, if_pos hc] at h
      · simp [matchLoop, if_neg hc]

theorem matchLoop_snd (k : ℕ) : ∀ (d s : List ℤ) (n : ℕ) (lw lc : Option ℤ),
    countMatches d s = k + 1 →
    (matchLoop d s n lw lc).2 = (some (d.getD k 0), some (s.getD k 0)) := by
  induction k with
  | zero =>
    intro d s n lw lc h
    cases d with
    | nil => simp [countMatches] at h
    | cons w dtl =>
      cases s with
      | nil => simp [countMatches] at h
      | cons c stl =>
        by_cases hc : c ≤ w
        · simp only [countMatches, if_pos hc, Nat.add_right_cancel_iff] at h
          rw [matchLoop, if_pos hc, matchLoop_of_count_zero dtl stl _ _ _ h]
          simp [List.getD]
        · simp [countMatches, if_neg hc] at h
  | succ k ih =>
    intro d s n lw lc h
    cases d with
    | nil => simp [countMatches] at h
    | cons w dtl =>
      cases s with
      | nil => simp [countMatches] at h
      | cons c stl =>
        by_cases hc : c ≤ w
        · simp only [countMatches, if_pos hc, Nat.add_right_cancel_iff] at h
          rw [matchLoop, if_pos hc, ih dtl stl _ _ _ h]
          simp [List.getD]
        · simp [countMatches, if_neg hc] at h

theorem matchLoop_eq (d s : List ℤ) (k : ℕ) (h : countMatches d s = k + 1) :
    matchLoop d s 0 none none = (k + 1, some (d.getD k 0), some (s.getD k 0)) := by
  have h1 := matchLoop_fst d s 0 none none
  have h2 := matchLoop_snd k d s 0 none none h
  rw [h] at h1
  simp only [Nat.zero_add] at h1
  exact Prod.ext h1 h2

theorem countMatches_le (d : List ℤ) : ∀ s : List ℤ,
    countMatches d s ≤ min d.length s.length := by
  induction d with
  | nil => intro s; simp [countMatches]
  | cons w dtl ih =>
    intro s
    cases s with
    | nil => simp [countMatches]
    | cons c stl =>
      by_cases hc : c ≤ w
      · simp only [countMatches, if_pos hc, List.length_cons]
        have := ih stl
        omega
      · simp [countMatches, if_neg hc]

theorem find_equilibrium_of_count_pos (d s : List ℤ) (k : ℕ)
    (h : countMatches d s = k + 1) :
    find_equilibrium d s =
      (((k : ℤ) + 1),
        if k + 1 = min d.length s.length then
          ((d.getD k 0 : ℚ) + (s.getD k 0 : ℚ)) / 2
        else
          ((d.getD (k + 1) 0 : ℚ) + (s.getD k 0 : ℚ)) / 2) := by
  cases d with
  | nil => simp [countMatches] at h
  | cons d0 dtl =>
    cases s with
    | nil => simp [countMatches] at h
    | cons s0 stl =>
      have hc : s0 ≤ d0 := by
        by_contra hcn
        simp [countMatches, if_neg hcn] at h
      have hne : ¬ d0 < s0 := not_lt.mpr hc
      have hle := countMatches_le (d0 :: dtl) (s0 :: stl)
      rw [h] at hle
      simp only [find_equilibrium, if_neg hne,
        matchLoop_eq (d0 :: dtl) (s0 :: stl) k h, Option.getD_some,
        Nat.succ_ne_zero, if_false]
      by_cases hfull : k + 1 = min (d0 :: dtl).length (s0 :: stl).length
      · rw [if_pos hfull, if_pos hfull]
        refine Prod.ext ?_ ?_
        · push_cast
          ring
        · rfl
      · rw [if_neg hfull, if_neg hfull]
        have hlt : k + 1 < (d0 :: dtl).length := by
          simp only [List.length_cons] at hfull hle ⊢
          omega
        refine Prod.ext ?_ ?_
        · push_cast
          ring
        · show ((((d0 :: dtl).getD (k + 1) ((d0 :: dtl).getD k 0) : ℤ) : ℚ) +
              ((s0 :: stl).getD k 0 : ℚ)) / 2 = _
          rw [List.getD_eq_getElem _ _ hlt, List.getD_eq_getElem _ _ hlt]

theorem find_equilibrium_fst (d s : List ℤ) :
    (find_equilibrium d s).1 = (countMatches d s : ℤ) := by
  cases hcm : countMatches d s with
  | zero =>
    cases d with
    | nil => cases s <;> simp [find_equilibrium]
    | cons d0 dtl =>
      cases s with
      | nil => simp [find_equilibrium]
      | cons s0 stl =>
        by_cases hlt : d0 < s0
        · simp [find_equilibrium, if_pos hlt]
        · exfalso
          have hc : s0 ≤ d0 := not_lt.mp hlt
          simp [countMatches, if_pos hc] at hcm
  | succ k =>
    rw [find_equilibrium_of_count_pos d s k hcm]
    simp

theorem countMatches_eq_countP (d : List ℤ) : ∀ (s : List ℤ),
    List.Sorted (· ≥ ·) d → List.Sorted (· ≤ ·) s →
    countMatches d s = (d.zip s).countP (fun p => p.2 ≤ p.1) := by
  induction d with
  | nil => intro s _ _; simp [countMatches]
  | cons w dtl ih =>
    intro s hd hs
    cases s with
    | nil => simp [countMatches]
    | cons c stl =>
      rw [List.sorted_cons] at hd hs
      by_cases hc : c ≤ w
      · simp only [countMatches, if_pos hc, List.zip_cons_cons, List.countP_cons]
        rw [ih stl hd.2 hs.2]
        simp [hc]
      · simp only [countMatches, if_neg hc, List.zip_cons_cons, List.countP_cons]
        have hz : (dtl.zip stl).countP (fun p => p.2 ≤ p.1) = 0 := by
          rw [List.countP_eq_zero]
          intro p hp
          obtain ⟨hp1, hp2⟩ := List.of_mem_zip hp
          have h1 : p.1 ≤ w := hd.1 p.1 hp1
          have h2 : c ≤ p.2 := hs.1 p.2 hp2
          simp only [decide_eq_true_eq]
          omega
        simp [hz, hc]

/-- Claim C1: for a demand list sorted non-increasing and a supply list
sorted non-decreasing with a positive count of matched pairs (the length
of the initial run of positions where demand meets supply),
find_equilibrium returns that count as the quantity; when every comparable
pair matched (full trade) the price is the midpoint of the last matched
pair, otherwise (partial trade) it is the midpoint of the first unmatched
buyer and the last matched seller cost. In particular
find_equilibrium [40,35,30,20] [10,15,18,22] = (3, 19.0). -/
theorem C1_positive_match_pricing (d s : List ℤ)
    (hd : List.Sorted (· ≥ ·) d) (hs : List.Sorted (· ≤ ·) s)
    (hpos : 0 < countMatches d s) :
    (find_equilibrium d s =
      ((countMatches d s : ℤ),
        if countMatches d s = min d.length s.length then
          ((d.getD (countMatches d s - 1) 0 : ℚ) +
            (s.getD (countMatches d s - 1) 0 : ℚ)) / 2
        else
          ((d.getD (countMatches d s) 0 : ℚ) +
            (s.getD (countMatches d s - 1) 0 : ℚ)) / 2)) ∧
    find_equilibrium [40, 35, 30, 20] [10, 15, 18, 22] = (3, 19) := by
  constructor
  · obtain ⟨k, hk⟩ : ∃ k, countMatches d s = k + 1 :=
      ⟨countMatches d s - 1, by omega⟩
    rw [find_equilibrium_of_count_pos d s k hk, hk]
    simp
  · simp only [find_equilibrium, matchLoop]
    norm_num [List.getD]

/-- Witness for C1 at the claim's concrete input. -/
theorem C1_witness : find_equilibrium [40, 35, 30, 20] [10, 15, 18, 22] = (3, 19) :=
  (C1_positive_match_pricing [40, 35, 30, 20] [10, 15, 18, 22]
    (by decide) (by decide) (by decide)).2

/-- Claim C2: find_equilibrium returns quantity 0 with the specified
reference price in every no-trade case: both empty gives (0, 0.0), one
empty side gives the best value of the other side, and two sorted
non-empty schedules with no matching pair give the midpoint of the best
buyer and the best seller. -/
theorem C2_no_trade_cases :
    find_equilibrium [] [] = (0, 0) ∧
    (∀ (s0 : ℤ) (stl : List ℤ), find_equilibrium [] (s0 :: stl) = (0, (s0 : ℚ))) ∧
    (∀ (d0 : ℤ) (dtl : List ℤ), find_equilibrium (d0 :: dtl) [] = (0, (d0 : ℚ))) ∧
    (∀ (d0 s0 : ℤ) (dtl stl : List ℤ),
      List.Sorted (· ≥ ·) (d0 :: dtl) → List.Sorted (· ≤ ·) (s0 :: stl) →
      (∀ i, i < min (d0 :: dtl).length (s0 :: stl).length →
        (d0 :: dtl).getD i 0 < (s0 :: stl).getD i 0) →
      find_equilibrium (d0 :: dtl) (s0 :: stl) = (0, ((d0 : ℚ) + (s0 : ℚ)) / 2)) := by
  refine ⟨rfl, fun s0 stl => rfl, fun d0 dtl => rfl, ?_⟩
  intro d0 s0 dtl stl hd hs hfail
  have h0 : d0 < s0 := by
    have := hfail 0 (by simp)
    simpa using this
  simp [find_equilibrium, if_pos h0]

/-- Witness for C2 at a concrete no-match input. -/
theorem C2_witness : find_equilibrium [10, 9] [12, 13] = (0, 11) := by
  have h := C2_no_trade_cases.2.2.2 10 12 [9] [13] (by decide) (by decide) (by decide)
  rw [h]
  norm_num

/-- Claim C3: for sorted schedules the quantity returned by
find_equilibrium equals the total number of comparable positions where
demand meets supply; stopping the scan at the first failing pair loses no
matches. -/
theorem C3_scan_loses_no_matches (d s : List ℤ)
    (hd : List.Sorted (· ≥ ·) d) (hs : List.Sorted (· ≤ ·) s) :
    (find_equilibrium d s).1 = ((d.zip s).countP (fun p => p.2 ≤ p.1) : ℤ) := by
  rw [find_equilibrium_fst, countMatches_eq_countP d s hd hs]

/-- Witness for C3 at a concrete input with a failing later pair. -/
theorem C3_witness :
    (find_equilibrium [40, 35, 30, 20] [10, 15, 18, 22]).1 =
      (([40, 35, 30, 20].zip [10, 15, 18, 22]).countP (fun p => p.2 ≤ p.1) : ℤ) :=
  C3_scan_loses_no_matches _ _ (by decide) (by decide)

/-- Claim C10: for every pair of input lists, find_equilibrium is total
(the embedding returns a defined rational price, never the null admitted
by the output schema) and the quantity satisfies
0 <= quantity <= min(len(demand), len(supply)). -/
theorem C10_quantity_bounds (d s : List ℤ) :
    0 ≤ (find_equilibrium d s).1 ∧
      (find_equilibrium d s).1 ≤ min (d.length : ℤ) (s.length : ℤ) := by
  rw [find_equilibrium_fst]
  have := countMatches_le d s
  omega

/-- compute_total_surplus_max (market.py lines 256-281): 0.0 for a
non-positive quantity, otherwise the float value of the sum of
demand[i] - supply[i] over the first min(q_star, len(demand), len(supply))
positions, with no per-term clamping. -/
def compute_total_surplus_max (demand supply : List ℤ) (q_star : ℤ) : ℚ :=
  if q_star ≤ 0 then 0
  else
    let n_tradeable : ℤ := min q_star (min (demand.length : ℤ) (supply.length : ℤ))
    if n_tradeable = 0 then 0
    else ((((List.range n_tradeable.toNat).map
      (fun i => demand.getD i 0 - supply.getD i 0)).sum : ℤ) : ℚ)

theorem list_range_sum_eq (f : ℕ → ℤ) (n : ℕ) :
    ∑ i in Finset.range n, f i = ((List.range n).map f).sum := by
  induction n with
  | zero => simp
  | succ k ih => rw [Finset.sum_range_succ, List.range_succ]; simp [ih]

theorem compute_total_surplus_max_eq (d s : List ℤ) (q : ℤ) :
    compute_total_surplus_max d s q =
      if q ≤ 0 then 0
      else ((∑ i in Finset.range (min q.toNat (min d.length s.length)),
          (d.getD i 0 - s.getD i 0) : ℤ) : ℚ) := by
  by_cases h0 : q ≤ 0
  · simp [compute_total_surplus_max, if_pos h0]
  · simp only [compute_total_surplus_max, if_neg h0]
    by_cases hz : min q (min (d.length : ℤ) (s.length : ℤ)) = 0
    · rw [if_pos hz]
      have hz2 : min q.toNat (min d.length s.length) = 0 := by omega
      rw [hz2]
      simp
    · rw [if_neg hz]
      have htn : (min q (min (d.length : ℤ) (s.length : ℤ))).toNat
          = min q.toNat (min d.length s.length) := by omega
      rw [list_range_sum_eq, htn]

/-- Claim C7: compute_total_surplus_max returns 0.0 for quantity at most
0, and otherwise the float value of the sum of demand[i] - supply[i] for
i below min(quantity, len(demand), len(supply)), without clamping terms
to non-negative; in particular it maps ([10,8,6],[3,5,7],3) to 9.0 and
([30,25],[10,20],999) to 25.0. -/
theorem C7_surplus_computation :
    (∀ (d s : List ℤ) (q : ℤ),
      compute_total_surplus_max d s q =
        if q ≤ 0 then 0
        else ((∑ i in Finset.range (min q.toNat (min d.length s.length)),
            (d.getD i 0 - s.getD i 0) : ℤ) : ℚ)) ∧
    compute_total_surplus_max [10, 8, 6] [3, 5, 7] 3 = 9 ∧
    compute_total_surplus_max [30, 25] [10, 20] 999 = 25 := by
  refine ⟨compute_total_surplus_max_eq, ?_, ?_⟩
  · rw [compute_total_surplus_max_eq]
    rw [if_neg (by norm_num : ¬ (3 : ℤ) ≤ 0)]
    have h : (∑ i in Finset.range (min (3 : ℤ).toNat
        (min ([10, 8, 6] : List ℤ).length ([3, 5, 7] : List ℤ).length)),
        (([10, 8, 6] : List ℤ).getD i 0 - ([3, 5, 7] : List ℤ).getD i 0) : ℤ) = 9 := by
      decide
    rw [h]
    norm_num
  · rw [compute_total_surplus_max_eq]
    rw [if_neg (by norm_num : ¬ (999 : ℤ) ≤ 0)]
    have h : (∑ i in Finset.range (min (999 : ℤ).toNat
        (min ([30, 25] : List ℤ).length ([10, 20] : List ℤ).length)),
        (([30, 25] : List ℤ).getD i 0 - ([10, 20] : List ℤ).getD i 0) : ℤ) = 25 := by
      decide
    rw [h]
    norm_num

theorem countMatches_prefix (d : List ℤ) : ∀ (s : List ℤ) (i : ℕ),
    i < countMatches d s → s.getD i 0 ≤ d.getD i 0 := by
  induction d with
  | nil => intro s i h; simp [countMatches] at h
  | cons w dtl ih =>
    intro s i h
    cases s with
    | nil => simp [countMatches] at h
    | cons c stl =>
      by_cases hc : c ≤ w
      · cases i with
        | zero => simpa using hc
        | succ j =>
          simp only [countMatches, if_pos hc] at h
          have := ih stl j (by omega)
          simpa using this
      · simp [countMatches, if_neg hc] at h

/-- Claim C8: in the intended composition, for sorted schedules the total
surplus computed at the quantity returned by find_equilibrium is
non-negative, because each of the traded units is a matched pair. -/
theorem C8_surplus_nonneg (d s : List ℤ)
    (hd : List.Sorted (· ≥ ·) d) (hs : List.Sorted (· ≤ ·) s) :
    0 ≤ compute_total_surplus_max d s (find_equilibrium d s).1 := by
  rw [find_equilibrium_fst]
  by_cases h0 : (countMatches d s : ℤ) ≤ 0
  · have h00 : countMatches d s = 0 := by omega
    simp [compute_total_surplus_max, h00]
  · simp only [compute_total_surplus_max, if_neg h0]
    by_cases hz : min (countMatches d s : ℤ) (min (d.length : ℤ) (s.length : ℤ)) = 0
    · rw [if_pos hz]
    · rw [if_neg hz]
      have hsum : 0 ≤ ((List.range (min (countMatches d s : ℤ)
          (min (d.length : ℤ) (s.length : ℤ))).toNat).map
          (fun i => d.getD i 0 - s.getD i 0)).sum := by
        apply List.sum_nonneg
        intro x hx
        simp only [List.mem_map, List.mem_range] at hx
        obtain ⟨i, hi, rfl⟩ := hx
        have hic : i < countMatches d s := by omega
        have := countMatches_prefix d s i hic
        omega
      exact_mod_cast hsum

/-- Witness for C8 at a concrete sorted input. -/
theorem C8_witness :
    0 ≤ compute_total_surplus_max [40, 35] [10, 15]
      (find_equilibrium [40, 35] [10, 15]).1 :=
  C8_surplus_nonneg [40, 35] [10, 15] (by decide) (by decide)

/-- Modelled from the spec: the caller-supplied deterministic random
source (Python's random.Random), which is stdlib code outside this
repository. It is abstracted as two entropy streams with a consumption
position: randint maps the next integer entropy into the inclusive range
(the spec: each value is drawn uniformly at random from the inclusive
integer range), and gauss turns the next real entropy z into
mean + sd * z, a draw from a normal distribution with the segment's
effective mean and spread. -/
structure RNG where
  intStream : ℕ → ℤ
  realStream : ℕ → ℚ
  pos : ℕ

/-- Modelled from the spec: rng.randint(lo, hi), an integer in [lo, hi]
inclusive, advancing the generator state. -/
def RNG.randint (r : RNG) (lo hi : ℤ) : ℤ × RNG :=
  (lo + r.intStream r.pos % (hi - lo + 1), { r with pos := r.pos + 1 })

/-- Modelled from the spec: rng.gauss(mean, sd), a normal draw, advancing
the generator state. -/
def RNG.gauss (r : RNG) (mu sigma : ℚ) : ℚ × RNG :=
  (mu + sigma * r.realStream r.pos, { r with pos := r.pos + 1 })

/-- Segment (models.py lines 19-66): a homogeneous sub-population with a
count, inclusive integer price bounds, a distribution name, and optional
normal-distribution parameters. -/
structure Segment where
  n : ℤ
  p_min : ℤ
  p_max : ℤ
  dist : String
  mean : Option ℚ
  sd : Option ℚ

/-- True when the segment has an explicit mean lying outside the price
bounds (the failing condition of market.py line 33). -/
def meanOutOfRange (seg : Segment) : Bool :=
  match seg.mean with
  | none => false
  | some mu => decide (mu < (seg.p_min : ℚ)) || decide ((seg.p_max : ℚ) < mu)

/-- True when the segment has an explicit non-positive standard deviation
(the failing condition of market.py line 35). -/
def sdNonPositive (seg : Segment) : Bool :=
  match seg.sd with
  | none => false
  | some s => decide (s ≤ 0)

/-- The validation of market.py _validate_segment (lines 24-36), with the
checks in source order. -/
def _validate_segment (seg : Segment) : Except String Unit :=
  if seg.n < 0 then .error "Segment size must be >= 0"
  else if seg.p_max < seg.p_min then .error "Invalid price range in segment"
  else if ¬ (seg.dist = "uniform" ∨ seg.dist = "normal") then
    .error "Segment distribution must be uniform or normal"
  else if seg.dist = "normal" ∧ meanOutOfRange seg then
    .error "Normal distribution mean must be between p_min and p_max"
  else if seg.dist = "normal" ∧ sdNonPositive seg then
    .error "Normal distribution standard deviation must be > 0"
  else .ok ()

/-- Python's builtin round() on an exact rational: round half to even. -/
def pythonRound (x : ℚ) : ℤ :=
  let f := ⌊x⌋
  if x - f < 1/2 then f
  else if 1/2 < x - f then f + 1
  else if f % 2 = 0 then f else f + 1

/-- market.py _clamp_int (lines 39-42): int(round(x)) then clamp to the
inclusive bounds. -/
def _clamp_int (x : ℚ) (lo hi : ℤ) : ℤ :=
  let xi := pythonRound x
  max lo (min xi hi)

/-- The inner uniform loop of sample_from_segments (market.py lines
82-83), also the legacy list comprehension of build_buyers_and_sellers
(lines 123 and 133): k draws of rng.randint lo hi in order. -/
def sampleUniformLoop : ℕ → ℤ → ℤ → RNG → List ℤ × RNG
  | 0, _, _, rng => ([], rng)
  | k + 1, lo, hi, rng =>
    let p1 := rng.randint lo hi
    let rest := sampleUniformLoop k lo hi p1.2
    (p1.1 :: rest.1, rest.2)

/-- The inner normal loop of sample_from_segments (market.py lines
90-92): k draws of rng.gauss, each clamped and rounded by _clamp_int. -/
def sampleNormalLoop : ℕ → ℚ → ℚ → ℤ → ℤ → RNG → List ℤ × RNG
  | 0, _, _, _, _, rng => ([], rng)
  | k + 1, mu, sigma, lo, hi, rng =>
    let p1 := rng.gauss mu sigma
    let rest := sampleNormalLoop k mu sigma lo hi p1.2
    (_clamp_int p1.1 lo hi :: rest.1, rest.2)

/-- The per-segment body of sample_from_segments (market.py lines 75-92):
skip an empty segment, draw uniformly for a uniform segment, and draw
from a clamped normal with defaulted mean (midpoint) and sigma
(max(1.0, span/6)) otherwise. -/
def sampleSegment (seg : Segment) (rng : RNG) : List ℤ × RNG :=
  if seg.n = 0 then ([], rng)
  else if seg.dist = "uniform" then
    sampleUniformLoop seg.n.toNat seg.p_min seg.p_max rng
  else
    let span := seg.p_max - seg.p_min
    let mu := seg.mean.getD (((seg.p_min : ℚ) + (seg.p_max : ℚ)) / 2)
    let sigma := seg.sd.getD (max 1 ((span : ℚ) / 6))
    sampleNormalLoop seg.n.toNat mu sigma seg.p_min seg.p_max rng

/-- sample_from_segments (market.py lines 47-95): validate each segment
in order, then append its sampled block; an empty segment list yields [].
A validation failure raises (ValueError), modelled as Except.error. -/
def sample_from_segments : List Segment → RNG → Except String (List ℤ × RNG)
  | [], rng => .ok ([], rng)
  | seg :: rest, rng =>
    match _validate_segment seg with
    | .error e => .error e
    | .ok _ =>
      let block := sampleSegment seg rng
      match sample_from_segments rest block.2 with
      | .error e => .error e
      | .ok (vals, rng2) => .ok (block.1 ++ vals, rng2)

/-- market.py sort_demand (lines 173-175): sorted(buyers, reverse=True).
Python's sorted is a stable mergesort; on plain integers every correct
sort returns the same list, so insertion sort is an equivalent model. -/
def sort_demand (buyers_wtp : List ℤ) : List ℤ :=
  List.insertionSort (· ≥ ·) buyers_wtp

/-- market.py sort_supply (lines 178-180): sorted(sellers). -/
def sort_supply (sellers_cost : List ℤ) : List ℤ :=
  List.insertionSort (· ≤ ·) sellers_cost

/-- MarketParams (models.py lines 69-127) as a plain record; the pydantic
validation chain is modelled separately by mkMarketParams. -/
structure MarketParams where
  num_buyers : ℤ
  num_sellers : ℤ
  min_wtp : ℤ
  max_wtp : ℤ
  min_cost : ℤ
  max_cost : ℤ
  seed : Option ℤ
  buyer_segments : Option (List Segment)
  seller_segments : Option (List Segment)

/-- Modelled from the spec: random.Random(seed) constructs a
deterministic random source whose whole stream is a fixed function of the
seed alone (the load-bearing reproducibility guarantee); the concrete
stream function is immaterial. -/
def randomOfSeed (seed : ℤ) : RNG :=
  { intStream := fun k => seed + k, realStream := fun k => ((seed + k : ℤ) : ℚ), pos := 0 }

/-- Python truthiness of an Optional[List]: present and non-empty. -/
def segmentsPresent : Option (List Segment) → Bool
  | none => false
  | some [] => false
  | some (_ :: _) => true

/-- build_buyers_and_sellers (market.py lines 100-144). One random source
is created from params.seed and threaded through buyer generation then
seller generation; each side uses segments when present and non-empty,
else the legacy uniform range; empty segment results and non-positive
legacy counts raise. The extra entropy argument models the
fresh-entropy source Python uses when seed is None. -/
def build_buyers_and_sellers (params : MarketParams) (entropy : RNG) :
    Except String (List ℤ × List ℤ) :=
  let rng : RNG :=
    match params.seed with
    | some k => randomOfSeed k
    | none => entropy
  let buyersRes : Except String (List ℤ × RNG) :=
    match params.buyer_segments with
    | some (seg :: rest) =>
      match sample_from_segments (seg :: rest) rng with
      | .error e => .error e
      | .ok (buyers, rng1) =>
        if buyers.isEmpty then .error "Buyer segments resulted in zero buyers"
        else .ok (buyers, rng1)
    | _ =>
      if params.num_buyers ≤ 0 then .error "Number of buyers must be greater than 0"
      else .ok (sampleUniformLoop params.num_buyers.toNat params.min_wtp params.max_wtp rng)
  match buyersRes with
  | .error e => .error e
  | .ok (buyers, rng1) =>
    let sellersRes : Except String (List ℤ × RNG) :=
      match params.seller_segments with
      | some (seg :: rest) =>
        match sample_from_segments (seg :: rest) rng1 with
        | .error e => .error e
        | .ok (sellers, rng2) =>
          if sellers.isEmpty then .error "Seller segments resulted in zero sellers"
          else .ok (sellers, rng2)
      | _ =>
        if params.num_sellers ≤ 0 then .error "Number of sellers must be greater than 0"
        else .ok (sampleUniformLoop params.num_sellers.toNat params.min_cost params.max_cost rng1)
    match sellersRes with
    | .error e => .error e
    | .ok (sellers, _) => .ok (sort_demand buyers, sort_supply sellers)

theorem randint_fst_mem (r : RNG) (lo hi : ℤ) (h : lo ≤ hi) :
    lo ≤ (r.randint lo hi).1 ∧ (r.randint lo hi).1 ≤ hi := by
  have h1 := Int.emod_nonneg (r.intStream r.pos) (by omega : hi - lo + 1 ≠ 0)
  have h2 := Int.emod_lt_of_pos (r.intStream r.pos) (by omega : (0 : ℤ) < hi - lo + 1)
  simp only [RNG.randint]
  omega

theorem sampleUniformLoop_mem (k : ℕ) (lo hi : ℤ) (h : lo ≤ hi) :
    ∀ (rng : RNG), ∀ v ∈ (sampleUniformLoop k lo hi rng).1, lo ≤ v ∧ v ≤ hi := by
  induction k with
  | zero => intro rng v hv; simp [sampleUniformLoop] at hv
  | succ j ih =>
    intro rng v hv
    simp only [sampleUniformLoop, List.mem_cons] at hv
    rcases hv with rfl | hv
    · exact randint_fst_mem rng lo hi h
    · exact ih _ v hv

theorem clamp_int_mem (x : ℚ) (lo hi : ℤ) (h : lo ≤ hi) :
    lo ≤ _clamp_int x lo hi ∧ _clamp_int x lo hi ≤ hi := by
  simp only [_clamp_int]
  omega

theorem sampleNormalLoop_mem (k : ℕ) (mu sigma : ℚ) (lo hi : ℤ) (h : lo ≤ hi) :
    ∀ (rng : RNG), ∀ v ∈ (sampleNormalLoop k mu sigma lo hi rng).1, lo ≤ v ∧ v ≤ hi := by
  induction k with
  | zero => intro rng v hv; simp [sampleNormalLoop] at hv
  | succ j ih =>
    intro rng v hv
    simp only [sampleNormalLoop, List.mem_cons] at hv
    rcases hv with rfl | hv
    · exact clamp_int_mem _ lo hi h
    · exact ih _ v hv

theorem validate_ok_facts (seg : Segment) (h : _validate_segment seg = .ok ()) :
    0 ≤ seg.n ∧ seg.p_min ≤ seg.p_max ∧
      (seg.dist = "uniform" ∨ seg.dist = "normal") := by
  simp only [_validate_segment] at h
  split_ifs at h with h1 h2 h3 h4 h5 <;>
    first
      | exact Except.noConfusion h
      | exact ⟨by omega, by omega, by tauto⟩

theorem sampleSegment_mem (seg : Segment) (rng : RNG)
    (h : _validate_segment seg = .ok ()) :
    ∀ v ∈ (sampleSegment seg rng).1, seg.p_min ≤ v ∧ v ≤ seg.p_max := by
  obtain ⟨hn, hpr, hdist⟩ := validate_ok_facts seg h
  intro v hv
  simp only [sampleSegment] at hv
  split_ifs at hv with h0 hu
  · simp at hv
  · exact sampleUniformLoop_mem _ _ _ hpr rng v hv
  · exact sampleNormalLoop_mem _ _ _ _ _ hpr rng v hv

theorem sampleUniformLoop_length (k : ℕ) (lo hi : ℤ) :
    ∀ rng : RNG, (sampleUniformLoop k lo hi rng).1.length = k := by
  induction k with
  | zero => intro rng; simp [sampleUniformLoop]
  | succ j ih => intro rng; simp [sampleUniformLoop, ih]

theorem sampleNormalLoop_length (k : ℕ) (mu sigma : ℚ) (lo hi : ℤ) :
    ∀ rng : RNG, (sampleNormalLoop k mu sigma lo hi rng).1.length = k := by
  induction k with
  | zero => intro rng; simp [sampleNormalLoop]
  | succ j ih => intro rng; simp [sampleNormalLoop, ih]

theorem sampleSegment_length (seg : Segment) (rng : RNG) :
    (sampleSegment seg rng).1.length = seg.n.toNat := by
  simp only [sampleSegment]
  split_ifs with h0 hu
  · simp [h0]
  · exact sampleUniformLoop_length _ _ _ rng
  · exact sampleNormalLoop_length _ _ _ _ _ rng

/-- Claim C4: for every list of valid segments and every random source,
sampling succeeds and the output is the concatenation of one block per
segment, in segment order; block i holds exactly the count of segment i
(pinning the attribution of each value to the segment that produced it),
and every value in block i is an integer v with
segment i's p_min ≤ v ≤ p_max, for both the uniform and the normal
distribution. -/
theorem C4_sample_bounds (segs : List Segment) (rng : RNG)
    (hval : ∀ seg ∈ segs, _validate_segment seg = .ok ()) :
    ∃ (blocks : List (List ℤ)) (rng2 : RNG),
      sample_from_segments segs rng = .ok (blocks.flatten, rng2) ∧
      blocks.length = segs.length ∧
      ∀ p ∈ segs.zip blocks, p.2.length = p.1.n.toNat ∧
        ∀ v ∈ p.2, p.1.p_min ≤ v ∧ v ≤ p.1.p_max := by
  induction segs generalizing rng with
  | nil => exact ⟨[], rng, rfl, rfl, by simp⟩
  | cons seg rest ih =>
    have hseg := hval seg (by simp)
    obtain ⟨blocks, rng2, hok, hlen, hmem⟩ :=
      ih (sampleSegment seg rng).2 (fun s hs => hval s (by simp [hs]))
    refine ⟨(sampleSegment seg rng).1 :: blocks, rng2, ?_, ?_, ?_⟩
    · simp only [sample_from_segments, hseg, hok, List.flatten_cons]
    · simp [hlen]
    · intro p hp
      rw [List.zip_cons_cons] at hp
      rcases List.mem_cons.mp hp with rfl | hp
      · exact ⟨sampleSegment_length seg rng,
          fun v hv => sampleSegment_mem seg rng hseg v hv⟩
      · exact hmem p hp

/-- A concrete uniform segment used by witnesses. -/
def segUniform : Segment :=
  { n := 2, p_min := 3, p_max := 5, dist := "uniform", mean := none, sd := none }

/-- A concrete zero-entropy random source used by witnesses. -/
def rngZero : RNG :=
  { intStream := fun _ => 0, realStream := fun _ => 0, pos := 0 }

/-- Witness for C4 at a concrete uniform segment and random source. -/
theorem C4_witness :
    ∃ (blocks : List (List ℤ)) (rng2 : RNG),
      sample_from_segments [segUniform] rngZero = .ok (blocks.flatten, rng2) ∧
      blocks.length = [segUniform].length ∧
      ∀ p ∈ [segUniform].zip blocks, p.2.length = p.1.n.toNat ∧
        ∀ v ∈ p.2, p.1.p_min ≤ v ∧ v ≤ p.1.p_max :=
  C4_sample_bounds _ _ (by
    intro s hs
    rw [List.mem_singleton] at hs
    subst hs
    rfl)

theorem pythonRound_intCast (n : ℤ) : pythonRound (n : ℚ) = n := by
  simp only [pythonRound, Int.floor_intCast, sub_self]
  norm_num

theorem pythonRound_bounds (x : ℚ) :
    ⌊x⌋ ≤ pythonRound x ∧ pythonRound x ≤ ⌊x⌋ + 1 := by
  simp only [pythonRound]
  split_ifs <;> omega

/-- Round-then-clamp as the code does it agrees with clamp-then-round as
the spec words it, for integer bounds: rounding a clamped endpoint cannot
leave the interval. -/
theorem clamp_round_comm (x : ℚ) (lo hi : ℤ) (h : lo ≤ hi) :
    _clamp_int x lo hi = pythonRound (max (lo : ℚ) (min x (hi : ℚ))) := by
  have hb := pythonRound_bounds x
  rcases lt_or_le x lo with hx | hx
  · have h1 : ⌊x⌋ < lo := by
      have h2 : (⌊x⌋ : ℚ) < (lo : ℚ) := lt_of_le_of_lt (Int.floor_le x) hx
      exact_mod_cast h2
    have h2 : pythonRound x ≤ lo := by omega
    have hmin : min x ((hi : ℤ) : ℚ) = x := by
      apply min_eq_left
      calc x ≤ (lo : ℚ) := hx.le
        _ ≤ (hi : ℚ) := by exact_mod_cast h
    rw [hmin, max_eq_left hx.le, pythonRound_intCast]
    simp only [_clamp_int]
    omega
  · rcases le_or_lt x (hi : ℚ) with hx2 | hx2
    · have hfl : lo ≤ ⌊x⌋ := by
        have h2 : ⌊((lo : ℤ) : ℚ)⌋ ≤ ⌊x⌋ := Int.floor_mono hx
        simpa using h2
      have hfh : ⌊x⌋ ≤ hi := by
        have h2 : ⌊x⌋ ≤ ⌊((hi : ℤ) : ℚ)⌋ := Int.floor_mono hx2
        simpa using h2
      have hrhi : pythonRound x ≤ hi := by
        by_cases hfx : ⌊x⌋ = hi
        · have hxhi : x = ((hi : ℤ) : ℚ) := by
            refine le_antisymm hx2 ?_
            rw [← hfx]
            exact Int.floor_le x
          rw [hxhi, pythonRound_intCast]
        · omega
      rw [min_eq_left hx2, max_eq_right hx]
      simp only [_clamp_int]
      omega
    · have h1 : hi ≤ ⌊x⌋ := by
        have h2 : ⌊((hi : ℤ) : ℚ)⌋ ≤ ⌊x⌋ := Int.floor_mono hx2.le
        simpa using h2
      have hmin : min x ((hi : ℤ) : ℚ) = ((hi : ℤ) : ℚ) := min_eq_right hx2.le
      have hmax : max ((lo : ℤ) : ℚ) ((hi : ℤ) : ℚ) = ((hi : ℤ) : ℚ) := by
        apply max_eq_right
        exact_mod_cast h
      rw [hmin, hmax, pythonRound_intCast]
      simp only [_clamp_int]
      omega

theorem sampleNormalLoop_fst (k : ℕ) (mu sigma : ℚ) (lo hi : ℤ) :
    ∀ rng : RNG, (sampleNormalLoop k mu sigma lo hi rng).1 =
      (List.range k).map
        (fun i => _clamp_int (mu + sigma * rng.realStream (rng.pos + i)) lo hi) := by
  induction k with
  | zero => intro rng; simp [sampleNormalLoop]
  | succ j ih =>
    intro rng
    simp only [sampleNormalLoop, RNG.gauss]
    rw [List.range_succ_eq_map, List.map_cons, List.map_map]
    refine congrArg₂ List.cons ?_ ?_
    · norm_num
    · rw [ih]
      apply List.map_congr_left
      intro i _
      simp only [Function.comp_apply]
      have harg : rng.pos + 1 + i = rng.pos + (i + 1) := by omega
      rw [harg]

theorem sampleSegment_normal_eq (seg : Segment) (rng : RNG) (mu sigma : ℚ)
    (hdist : seg.dist = "normal") (hmean : seg.mean = some mu)
    (hsd : seg.sd = some sigma) :
    (sampleSegment seg rng).1 =
      (List.range seg.n.toNat).map (fun i =>
        _clamp_int (mu + sigma * rng.realStream (rng.pos + i)) seg.p_min seg.p_max) := by
  by_cases h0 : seg.n = 0
  · simp [sampleSegment, h0]
  · have hu : ¬ seg.dist = "uniform" := by rw [hdist]; decide
    simp only [sampleSegment, if_neg h0, if_neg hu, hmean, hsd, Option.getD_some]
    exact sampleNormalLoop_fst _ _ _ _ _ rng

/-- A concrete normal segment whose single Gaussian draw is exactly 2.5,
inside the bounds, used to settle claim C5. -/
def segNormalTie : Segment :=
  { n := 1, p_min := 0, p_max := 10, dist := "normal", mean := some (5/2), sd := some 1 }

/-- Counterexample to claim C5 as stated: with a normal segment whose
Gaussian draw is exactly 2.5 inside the bounds, the generated value is 2,
not the 3 that rounding ties away from zero would give, because Python's
round() rounds a tie to the nearest even integer. -/
theorem C5_counterexample :
    (sampleSegment segNormalTie rngZero).1 = [2] ∧ ((2 : ℤ) ≠ 3) := by
  refine ⟨?_, by decide⟩
  rw [sampleSegment_normal_eq segNormalTie rngZero (5/2) 1 rfl rfl rfl]
  show [_clamp_int (5/2 + 1 * rngZero.realStream (rngZero.pos + 0)) 0 10] = [2]
  simp only [rngZero, _clamp_int]
  norm_num [pythonRound]

/-- Claim C5 amended: for a normal-distribution segment each generated
value equals the Gaussian draw first clamped into [price_min, price_max]
and then rounded to the nearest integer, where a tie (fractional part
exactly .5) rounds to the nearest even integer (Python's round), not
away from zero: a draw of exactly 2.5 inside the bounds yields 2 and a
draw of exactly -2.5 inside the bounds yields -2. -/
theorem C5_amended_normal_rounding (seg : Segment) (rng : RNG) (mu sigma : ℚ)
    (hok : _validate_segment seg = .ok ()) (hdist : seg.dist = "normal")
    (hmean : seg.mean = some mu) (hsd : seg.sd = some sigma) :
    ((sampleSegment seg rng).1 =
      (List.range seg.n.toNat).map (fun i =>
        pythonRound (max (seg.p_min : ℚ)
          (min (mu + sigma * rng.realStream (rng.pos + i)) (seg.p_max : ℚ))))) ∧
    pythonRound (5/2) = 2 ∧ pythonRound (-(5/2)) = -2 := by
  refine ⟨?_, by norm_num [pythonRound], by norm_num [pythonRound]⟩
  rw [sampleSegment_normal_eq seg rng mu sigma hdist hmean hsd]
  apply List.map_congr_left
  intro i _
  exact clamp_round_comm _ _ _ (validate_ok_facts seg hok).2.1

/-- Witness for the amended C5 at the concrete tie segment. -/
theorem C5_witness :
    ((sampleSegment segNormalTie rngZero).1 =
      (List.range segNormalTie.n.toNat).map (fun i =>
        pythonRound (max (segNormalTie.p_min : ℚ)
          (min (5/2 + 1 * rngZero.realStream (rngZero.pos + i))
            (segNormalTie.p_max : ℚ))))) ∧
    pythonRound (5/2) = 2 ∧ pythonRound (-(5/2)) = -2 :=
  C5_amended_normal_rounding segNormalTie rngZero (5/2) 1
    (by norm_num [_validate_segment, meanOutOfRange, sdNonPositive, segNormalTie])
    rfl rfl rfl

/-- Claim C6: sampling is deterministic in the random source: two random
sources in the same initial state yield equal value sequences from
sample_from_segments, and build_buyers_and_sellers called twice with the
same MarketParams carrying a non-null seed returns identical
(demand, supply) pairs — the fresh-entropy argument, consulted only when
the seed is absent, is ignored. -/
theorem C6_determinism :
    (∀ (segs : List Segment) (r1 r2 : RNG),
      r1.intStream = r2.intStream → r1.realStream = r2.realStream →
      r1.pos = r2.pos →
      sample_from_segments segs r1 = sample_from_segments segs r2) ∧
    (∀ (params : MarketParams) (k : ℤ) (e1 e2 : RNG), params.seed = some k →
      build_buyers_and_sellers params e1 = build_buyers_and_sellers params e2) := by
  constructor
  · intro segs r1 r2 hi hr hp
    have hEq : r1 = r2 := by
      cases r1
      cases r2
      simp_all
    rw [hEq]
  · intro params k e1 e2 hseed
    simp only [build_buyers_and_sellers, hseed]

/-- A concrete seeded legacy parameter set used by witnesses. -/
def paramsSeeded : MarketParams :=
  { num_buyers := 3, num_sellers := 3, min_wtp := 10, max_wtp := 40,
    min_cost := 5, max_cost := 35, seed := some 42,
    buyer_segments := none, seller_segments := none }

/-- A concrete random source distinct from rngZero, used by witnesses. -/
def rngOne : RNG :=
  { intStream := fun _ => 1, realStream := fun _ => 1, pos := 0 }

/-- Witness for C6: with a seed present, two different entropy sources
give identical build results. -/
theorem C6_witness :
    build_buyers_and_sellers paramsSeeded rngZero =
      build_buyers_and_sellers paramsSeeded rngOne :=
  C6_determinism.2 paramsSeeded 42 rngZero rngOne rfl

/-- The configurable ceilings of config.py consumed by the validation in
models.py. -/
structure Settings where
  max_buyers : ℤ
  max_sellers : ℤ
  max_segments : ℤ
  max_price : ℤ

/-- config.py defaults (lines 39-61): max_buyers 100, max_sellers 100,
max_segments 3, max_price 1000. -/
def defaultSettings : Settings :=
  { max_buyers := 100, max_sellers := 100, max_segments := 3, max_price := 1000 }

/-- True when an Optional segment list is present and longer than the
configured max_length (the pydantic field constraint of models.py lines
118-127). -/
def overMaxLength (cfg : Settings) : Option (List Segment) → Bool
  | none => false
  | some l => decide (cfg.max_segments < (l.length : ℤ))

/-- The per-side segment checks of validate_segments_and_feasibility
(models.py lines 134-144): when the side is truthy, its length must be
between 1 and max_segments and its total participant count within the
side's limit. -/
def checkSegsSide (cfg : Settings) (limit : ℤ) :
    Option (List Segment) → Except String Unit
  | some (s :: rest) =>
    if ¬ (1 ≤ (((s :: rest).length : ℕ) : ℤ) ∧
        (((s :: rest).length : ℕ) : ℤ) ≤ cfg.max_segments) then
      .error "segment count out of range"
    else if limit < ((s :: rest).map Segment.n).sum then
      .error "Total participants exceeds limit"
    else .ok ()
  | _ => .ok ()

/-- models.py _check_market_feasibility (lines 151-167): with segments on
both sides, the best buyer segment maximum must reach the cheapest seller
segment minimum; with legacy parameters on both sides, max_wtp must
reach min_cost; mixed configurations are not checked. -/
def _check_market_feasibility (p : MarketParams) : Except String Unit :=
  if segmentsPresent p.buyer_segments ∧ segmentsPresent p.seller_segments then
    match p.buyer_segments, p.seller_segments with
    | some (b :: bs), some (c :: cs) =>
      if (bs.map Segment.p_max).foldl max b.p_max <
          (cs.map Segment.p_min).foldl min c.p_min then
        .error "No trades possible: highest buyer max below lowest seller min"
      else .ok ()
    | _, _ => .ok ()
  else if ¬ segmentsPresent p.buyer_segments ∧ ¬ segmentsPresent p.seller_segments then
    if p.max_wtp < p.min_cost then
      .error "No trades possible: max_wtp below min_cost"
    else .ok ()
  else .ok ()

/-- models.py model_post_init (lines 169-177): legacy ranges must satisfy
max strictly above min on any side without segments. -/
def model_post_init (p : MarketParams) : Except String Unit :=
  if ¬ segmentsPresent p.buyer_segments ∧ p.max_wtp ≤ p.min_wtp then
    .error "max_wtp must be greater than min_wtp"
  else if ¬ segmentsPresent p.seller_segments ∧ p.max_cost ≤ p.min_cost then
    .error "max_cost must be greater than min_cost"
  else .ok ()

/-- The pydantic construction of MarketParams (models.py lines 69-177):
the scalar field range constraints and segment-list max_length constraint
run first, then the after-model validator (per-side segment checks, then
_check_market_feasibility), then model_post_init. Any failure rejects the
parameters: no MarketParams value is produced, and
build_buyers_and_sellers — the only sampling entry point — consumes only
a constructed MarketParams. Per-Segment pydantic field validation happens
at Segment construction and is modelled by _validate_segment at the
sampling boundary. -/
def mkMarketParams (cfg : Settings) (p : MarketParams) : Except String MarketParams :=
  if ¬ (1 ≤ p.num_buyers ∧ p.num_buyers ≤ cfg.max_buyers) then
    .error "num_buyers out of range"
  else if ¬ (1 ≤ p.num_sellers ∧ p.num_sellers ≤ cfg.max_sellers) then
    .error "num_sellers out of range"
  else if ¬ (0 ≤ p.min_wtp ∧ p.min_wtp ≤ cfg.max_price) then
    .error "min_wtp out of range"
  else if ¬ (0 ≤ p.max_wtp ∧ p.max_wtp ≤ cfg.max_price) then
    .error "max_wtp out of range"
  else if ¬ (0 ≤ p.min_cost ∧ p.min_cost ≤ cfg.max_price) then
    .error "min_cost out of range"
  else if ¬ (0 ≤ p.max_cost ∧ p.max_cost ≤ cfg.max_price) then
    .error "max_cost out of range"
  else if overMaxLength cfg p.buyer_segments then
    .error "buyer_segments too long"
  else if overMaxLength cfg p.seller_segments then
    .error "seller_segments too long"
  else
    match checkSegsSide cfg cfg.max_buyers p.buyer_segments with
    | .error e => .error e
    | .ok _ =>
      match checkSegsSide cfg cfg.max_sellers p.seller_segments with
      | .error e => .error e
      | .ok _ =>
        match _check_market_feasibility p with
        | .error e => .error e
        | .ok _ =>
          match model_post_init p with
          | .error e => .error e
          | .ok _ => .ok p

/-- Claim C9: for legacy (segment-free) parameters on both sides, any
parameter set with max_wtp below min_cost is rejected as a validation
error during MarketParams construction, before any sampling occurs: the
construction yields an error and never a value. -/
theorem C9_infeasible_rejected (cfg : Settings) (p : MarketParams)
    (hb : segmentsPresent p.buyer_segments = false)
    (hs : segmentsPresent p.seller_segments = false)
    (hlt : p.max_wtp < p.min_cost) :
    ∃ e, mkMarketParams cfg p = .error e := by
  have hfeas : _check_market_feasibility p =
      .error "No trades possible: max_wtp below min_cost" := by
    simp only [_check_market_feasibility]
    rw [if_neg (by simp [hb]), if_pos (by simp [hb, hs]), if_pos hlt]
  simp only [mkMarketParams]
  split_ifs <;> try exact ⟨_, rfl⟩
  rcases hcb : checkSegsSide cfg cfg.max_buyers p.buyer_segments with e | u
  · exact ⟨e, by simp only [hcb]⟩
  · rcases hcs : checkSegsSide cfg cfg.max_sellers p.seller_segments with e | u2
    · exact ⟨e, by simp only [hcb, hcs]⟩
    · exact ⟨"No trades possible: max_wtp below min_cost",
        by simp only [hcb, hcs, hfeas]⟩

/-- A concrete segment-free parameter set with max_wtp below min_cost,
in range for every field constraint, used by the C9 witness. -/
def paramsInfeasible : MarketParams :=
  { num_buyers := 10, num_sellers := 10, min_wtp := 5, max_wtp := 10,
    min_cost := 20, max_cost := 35, seed := none,
    buyer_segments := none, seller_segments := none }

/-- Witness for C9 at the concrete infeasible parameter set. -/
theorem C9_witness :
    ∃ e, mkMarketParams defaultSettings paramsInfeasible = .error e :=
  C9_infeasible_rejected defaultSettings paramsInfeasible rfl rfl (by decide)

end Mkt
